import Mathlib

/-!
Verification of the track / GPX core of the mapper repository
(`src/src/core/track.h`).

The data model (the fields of `TrackPoint` and `Track`) is translated from
the header.  The header only declares the operations; their behaviour is
modelled from the specification, as noted on each definition.

Modelling conventions:
* real numbers are modelled by `ℚ`;
* the NaN sentinel of `elevation` / `hDOP` is modelled by the dedicated
  constructor `GpxNum.nan`, disjoint from every value;
* an invalid `QDateTime` is modelled by `none : Option ℕ`;
* the XML layer is out of scope in the specification, so a GPX document is
  modelled structurally: an attribute or child that is present is either a
  well-formed value (`parsed`) or present-but-malformed (`unparseable`);
* a fallible operation returns `Option` / a success flag instead of a
  C++ `bool` out-parameter convention.
-/

set_option autoImplicit false

/-- Geographic coordinate: latitude / longitude in decimal degrees (WGS84),
translated from `LatLon` as used by `core/track.h`. -/
structure LatLon where
  lat : ℚ
  lon : ℚ
deriving DecidableEq

/-- Planar map coordinate, translated from `MapCoordF`. -/
structure MapCoordF where
  x : ℚ
  y : ℚ
deriving DecidableEq

/-- An optional numeric GPS attribute: `nan` models the NaN sentinel used by
`TrackPoint::elevation` and `TrackPoint::hDOP` ("NaN if invalid"), disjoint
from every actual value. -/
inductive GpxNum where
  | nan : GpxNum
  | val : ℚ → GpxNum
deriving DecidableEq

/-- A geographic point in a track or a waypoint; fields translated from
`struct TrackPoint` in `core/track.h` (defaults: invalid datetime, NaN
elevation and hDOP). -/
structure TrackPoint where
  gps_coord : LatLon := ⟨0, 0⟩
  datetime : Option ℕ := none
  elevation : GpxNum := GpxNum.nan
  hDOP : GpxNum := GpxNum.nan
  map_coord : MapCoordF := ⟨0, 0⟩
deriving DecidableEq

/-- The georeferencing context, an external collaborator: a black box
exposing a geographic-to-local transform and a CRS specification string. -/
structure Georeferencing where
  toMapCoordF : LatLon → MapCoordF
  crsSpec : String

/-- Stores a set of tracks and / or waypoints; fields translated from the
private data members of `class Track` in `core/track.h`: the points of all
segments are stored flat in `segment_points`, and `segment_starts` holds the
indices of the first points of every track segment. -/
structure Track where
  waypoints : List TrackPoint := []
  waypoint_names : List String := []
  segment_points : List TrackPoint := []
  segment_starts : List ℕ := []
  segment_names : List String := []
  map_georef : Georeferencing
  current_segment_finished : Bool := true

/-- Derive a point's map coordinates from its geographic coordinates
according to a georeferencing. -/
def projPoint (g : Georeferencing) (p : TrackPoint) : TrackPoint :=
  { p with map_coord := g.toMapCoordF p.gps_coord }

/-- Modelled from the spec: the segment-open rule shared by point insertion
(`Track::appendTrackPoint` is declared but not implemented under `src/`).
If the current segment is finished, the point starts a new segment (a new
segment start index and an empty segment name are recorded and the flag is
cleared); otherwise the point extends the last segment. -/
def Track.pushPoint (t : Track) (q : TrackPoint) : Track :=
  if t.current_segment_finished then
    { t with
      segment_points := t.segment_points ++ [q],
      segment_starts := t.segment_starts ++ [t.segment_points.length],
      segment_names := t.segment_names ++ [""],
      current_segment_finished := false }
  else
    { t with segment_points := t.segment_points ++ [q] }

/-- Modelled from the spec: `Track::appendTrackPoint` (implementation not
under `src/`) appends the point, after updating the point's map coordinates
from its geographic coordinates according to the map's georeferencing, and
applies the segment-open rule. -/
def Track.appendTrackPoint (t : Track) (p : TrackPoint) : Track :=
  t.pushPoint (projPoint t.map_georef p)

/-- Modelled from the spec: `Track::finishCurrentSegment` (implementation
not under `src/`) marks the current track segment as finished, so the next
added point starts a new segment; it does not touch stored points. -/
def Track.finishCurrentSegment (t : Track) : Track :=
  { t with current_segment_finished := true }

/-- Waypoint insertion without coordinate derivation (helper for the
decoder, which may skip projection). -/
def Track.pushWaypoint (t : Track) (q : TrackPoint) (name : String) : Track :=
  { t with
    waypoints := t.waypoints ++ [q],
    waypoint_names := t.waypoint_names ++ [name] }

/-- Modelled from the spec: `Track::appendWaypoint` (implementation not
under `src/`) appends the waypoint and its name, after updating the point's
map coordinates according to the map's georeferencing. -/
def Track.appendWaypoint (t : Track) (p : TrackPoint) (name : String) : Track :=
  t.pushWaypoint (projPoint t.map_georef p) name

/-- Modelled from the spec: `Track::clear` (implementation not under `src/`)
deletes all data of the track, except the projection parameters, and resets
the segment-open flag. -/
def Track.clear (t : Track) : Track :=
  { map_georef := t.map_georef }

/-- Modelled from the spec: `Track::projectPoints` (implementation not under
`src/`) recomputes the map coordinates of every stored point — segment
points and waypoints — from its stored geographic position. -/
def Track.projectPoints (t : Track) : Track :=
  { t with
    segment_points := t.segment_points.map (projPoint t.map_georef),
    waypoints := t.waypoints.map (projPoint t.map_georef) }

/-- Modelled from the spec: `Track::changeMapGeoreferencing` (implementation
not under `src/`) replaces the georeferencing context and updates the map
positions of all points based on the new georeferencing. -/
def Track.changeMapGeoreferencing (t : Track) (g : Georeferencing) : Track :=
  Track.projectPoints { t with map_georef := g }

/-- The `(start, end)` index pairs of the segments described by a list of
segment start indices and a total point count. -/
def segSlices : List ℕ → ℕ → List (ℕ × ℕ)
  | [], _ => []
  | s :: rest, total => (s, rest.head?.getD total) :: segSlices rest total

/-- The segments of a track as lists of points, recovered from the flat
point storage and the recorded segment start indices. -/
def Track.segments (t : Track) : List (List TrackPoint) :=
  (segSlices t.segment_starts t.segment_points.length).map
    (fun se => (t.segment_points.drop se.1).take (se.2 - se.1))

/-- Translated from the getter `Track::getNumSegments`. -/
def Track.getNumSegments (t : Track) : ℕ :=
  t.segment_starts.length

/-- First point index of segment `i` (0 when out of range). -/
def Track.segmentStart (t : Track) (i : ℕ) : ℕ :=
  (t.segment_starts[i]?).getD 0

/-- One past the last point index of segment `i`: the next recorded segment
start, or the total number of points for the last segment. -/
def Track.segmentEnd (t : Track) (i : ℕ) : ℕ :=
  (t.segment_starts[i + 1]?).getD t.segment_points.length

/-- Modelled from the spec: `Track::getSegmentPointCount` (implementation
not under `src/`) is bounds-checked read access; the IndexOutOfRange failure
of §7 is modelled as `none`. -/
def Track.getSegmentPointCount (t : Track) (i : ℕ) : Option ℕ :=
  if i < t.getNumSegments then some (t.segmentEnd i - t.segmentStart i) else none

/-- Modelled from the spec: `Track::getSegmentPoint` (implementation not
under `src/`) is bounds-checked read access into the flat point storage; the
IndexOutOfRange failure of §7 is modelled as `none`. -/
def Track.getSegmentPoint (t : Track) (i j : ℕ) : Option TrackPoint :=
  (t.getSegmentPointCount i).bind
    (fun c => if j < c then t.segment_points[t.segmentStart i + j]? else none)

/-- Modelled from the spec: `Track::getSegmentName`, bounds-checked. -/
def Track.getSegmentName (t : Track) (i : ℕ) : Option String :=
  t.segment_names[i]?

/-- Translated from the getter `Track::getNumWaypoints`. -/
def Track.getNumWaypoints (t : Track) : ℕ :=
  t.waypoints.length

/-- Modelled from the spec: `Track::getWaypoint`, bounds-checked. -/
def Track.getWaypoint (t : Track) (i : ℕ) : Option TrackPoint :=
  t.waypoints[i]?

/-- Modelled from the spec: `Track::getWaypointName`, bounds-checked. -/
def Track.getWaypointName (t : Track) (i : ℕ) : Option String :=
  t.waypoint_names[i]?

/-- Accumulate latitude sum, longitude sum and sample count over points. -/
def accPos (acc : ℚ × ℚ × ℕ) (p : TrackPoint) : ℚ × ℚ × ℕ :=
  (acc.1 + p.gps_coord.lat, acc.2.1 + p.gps_coord.lon, acc.2.2 + 1)

/-- Modelled from the spec: `Track::calcAveragePosition` (implementation not
under `src/`) averages all track coordinates — every waypoint and every
point in every segment.  Chosen policy for the empty track, documented here:
the operation fails, returning `none`. -/
def Track.calcAveragePosition (t : Track) : Option LatLon :=
  let a := (t.waypoints ++ t.segment_points).foldl accPos (0, 0, 0)
  if a.2.2 = 0 then none else some ⟨a.1 / (a.2.2 : ℚ), a.2.1 / (a.2.2 : ℚ)⟩

/-- Translated from `Track::crsSpec`: the track's CRS specification comes
from the georeferencing context. -/
def Track.crsSpec (t : Track) : String :=
  t.map_georef.crsSpec

/-- Modelled from the spec: equality of optional numeric fields, where the
absence sentinel compares equal to itself and unequal to any present
value. -/
def sentinelEq (a b : GpxNum) : Bool :=
  match a, b with
  | GpxNum.nan, GpxNum.nan => true
  | GpxNum.val x, GpxNum.val y => decide (x = y)
  | _, _ => false

/-- Default IEEE-754 style comparison of the same optional fields, under
which NaN is unequal to everything, itself included. -/
def floatEq (a b : GpxNum) : Bool :=
  match a, b with
  | GpxNum.val x, GpxNum.val y => decide (x = y)
  | _, _ => false

/-- Modelled from the spec: two TrackPoints are equal iff `position`,
`timestamp` (absent matching absent) and each optional numeric field are
equal, the absence sentinel comparing equal to itself.  The derived
`map_coord` is not authoritative and does not take part. -/
def trackPointEq (p q : TrackPoint) : Bool :=
  decide (p.gps_coord = q.gps_coord) && decide (p.datetime = q.datetime) &&
    sentinelEq p.elevation q.elevation && sentinelEq p.hDOP q.hDOP

/-- Element-wise comparison of two lists by a given comparison. -/
def listEqBy {α β : Type} (f : α → β → Bool) : List α → List β → Bool
  | [], [] => true
  | a :: l, b :: m => f a b && listEqBy f l m
  | _, _ => false

/-- Modelled from the spec: structural Track equality — waypoint sequences
equal element-wise (including names) and segment sequences equal
element-wise, each segment compared as an ordered sequence of points. -/
def trackEq (a b : Track) : Bool :=
  listEqBy trackPointEq a.waypoints b.waypoints &&
    decide (a.waypoint_names = b.waypoint_names) &&
    listEqBy (listEqBy trackPointEq) a.segments b.segments

/-- A numeric XML attribute or child as seen by the decoder: either
well-formed (parseable as a decimal number) or present but malformed. -/
inductive RawNum where
  | parsed : ℚ → RawNum
  | unparseable : RawNum
deriving DecidableEq

/-- A `time` child as seen by the decoder: either a well-formed ISO-8601
instant or present but malformed. -/
inductive RawTime where
  | parsed : ℕ → RawTime
  | unparseable : RawTime
deriving DecidableEq

/-- A text child as seen by the decoder. -/
inductive RawText where
  | parsed : String → RawText
  | unparseable : RawText
deriving DecidableEq

/-- A `wpt` / `trkpt` element of a GPX document: attributes and known
children, each possibly absent, present-and-well-formed, or malformed.
Unknown elements and attributes are ignored by the decoder and therefore
not modelled. -/
structure GpxPoint where
  lat : Option RawNum := none
  lon : Option RawNum := none
  ele : Option RawNum := none
  time : Option RawTime := none
  hdop : Option RawNum := none
  name : Option RawText := none
deriving DecidableEq

/-- A GPX document: top-level `wpt` elements and `trk` elements, each track
a list of `trkseg` elements, each a list of `trkpt` elements. -/
structure GpxDoc where
  wpts : List GpxPoint := []
  trks : List (List (List GpxPoint)) := []
deriving DecidableEq

/-- Lenient parse of an optional numeric child: absent or malformed gives
the NaN absence sentinel. -/
def parseOptNum : Option RawNum → GpxNum
  | some (RawNum.parsed q) => GpxNum.val q
  | _ => GpxNum.nan

/-- Lenient parse of the optional `time` child: absent or malformed gives
the invalid-datetime sentinel. -/
def parseOptTime : Option RawTime → Option ℕ
  | some (RawTime.parsed v) => some v
  | _ => none

/-- Lenient parse of the optional `name` child: absent or malformed gives
the empty name. -/
def parseOptName : Option RawText → String
  | some (RawText.parsed s) => s
  | _ => ""

/-- Modelled from the spec: decoding of one point element.  `lat` and `lon`
are mandatory and must be parseable, else the point (and with it the whole
document) fails to decode; the optional children are parsed leniently. -/
def decodeTrkpt (p : GpxPoint) : Option TrackPoint :=
  match p.lat, p.lon with
  | some (RawNum.parsed la), some (RawNum.parsed lo) =>
      some { gps_coord := ⟨la, lo⟩
             datetime := parseOptTime p.time
             elevation := parseOptNum p.ele
             hDOP := parseOptNum p.hdop }
  | _, _ => none

/-- Modelled from the spec: decoding of one `wpt` element — a point plus a
leniently parsed name. -/
def decodeWpt (p : GpxPoint) : Option (TrackPoint × String) :=
  (decodeTrkpt p).map (fun tp => (tp, parseOptName p.name))

/-- Apply a fallible function to every element; fail if any element
fails. -/
def mapOrNone {α β : Type} (f : α → Option β) : List α → Option (List β)
  | [] => some []
  | a :: l =>
    match f a, mapOrNone f l with
    | some b, some m => some (b :: m)
    | _, _ => none

/-- Modelled from the spec: decoding of a whole GPX document into waypoint
and segment content.  Every point must decode, else the whole decode
fails. -/
def decodeDoc (doc : GpxDoc) :
    Option (List (TrackPoint × String) × List (List TrackPoint)) :=
  match mapOrNone decodeWpt doc.wpts,
        mapOrNone (mapOrNone decodeTrkpt) doc.trks.flatten with
  | some w, some s => some (w, s)
  | _, _ => none

/-- Build decoded content into a track: append every waypoint, then every
segment's points followed by a segment finish (so an empty `trkseg` yields
no segment).  The transform `k` is the per-point coordinate projection, or
the identity when `project_points` is off. -/
def buildContent (t : Track) (k : TrackPoint → TrackPoint)
    (wpts : List (TrackPoint × String)) (segs : List (List TrackPoint)) :
    Track :=
  segs.foldl
    (fun s seg =>
      (seg.foldl (fun u p => u.pushPoint (k p)) s).finishCurrentSegment)
    (wpts.foldl (fun s w => s.pushWaypoint (k w.1) w.2) t)

/-- Modelled from the spec: `Track::loadFromGPX` (implementation not under
`src/`) replaces the track's content with the result of decoding; atomic —
built in a scratch track and kept only on success, so on decode failure the
track is returned unchanged.  When `project_points` is set, map coordinates
are derived for every decoded point; otherwise the caller must invoke
`changeMapGeoreferencing` afterwards. -/
def Track.loadFromGPX (t : Track) (doc : GpxDoc) (project_points : Bool) :
    Bool × Track :=
  match decodeDoc doc with
  | none => (false, t)
  | some ws =>
      (true,
        buildContent t.clear
          (fun p => if project_points then projPoint t.map_georef p else p)
          ws.1 ws.2)

/-- Modelled from the spec: `Track::loadFrom` (implementation not under
`src/`) — open the file and decode it; an unreadable file (`none`) is an
IOFailure, surfaced as `false` with no mutation. -/
def Track.loadFrom (t : Track) (file : Option GpxDoc) (project_points : Bool) :
    Bool × Track :=
  match file with
  | none => (false, t)
  | some doc => t.loadFromGPX doc project_points

/-- Encode an optional numeric field: the absence sentinel is omitted. -/
def encodeNum : GpxNum → Option RawNum
  | GpxNum.nan => none
  | GpxNum.val q => some (RawNum.parsed q)

/-- Encode the optional timestamp: an invalid datetime is omitted. -/
def encodeTime : Option ℕ → Option RawTime
  | none => none
  | some v => some (RawTime.parsed v)

/-- Modelled from the spec: `TrackPoint::save` (implementation not under
`src/`) serializes one point — mandatory `lat` / `lon`, optional children
omitted when their value is the absence sentinel. -/
def TrackPoint.save (p : TrackPoint) : GpxPoint :=
  { lat := some (RawNum.parsed p.gps_coord.lat)
    lon := some (RawNum.parsed p.gps_coord.lon)
    ele := encodeNum p.elevation
    time := encodeTime p.datetime
    hdop := encodeNum p.hDOP
    name := none }

/-- Serialize one waypoint: its point plus its name child (omitted when
empty). -/
def saveWpt (p : TrackPoint) (name : String) : GpxPoint :=
  { p.save with
    name := if name = "" then none else some (RawText.parsed name) }

/-- Modelled from the spec: `Track::saveTo` (implementation not under
`src/`) serializes the current content without mutating the track: one
`wpt` per waypoint and one `trk` containing one `trkseg` per stored
segment, points in stored order. -/
def Track.saveTo (t : Track) : GpxDoc :=
  { wpts := (t.waypoints.zip t.waypoint_names).map (fun w => saveWpt w.1 w.2)
    trks := [t.segments.map (fun seg => seg.map TrackPoint.save)] }

/-- The parallel name storage is aligned with the point storage: one name
per waypoint and one name per segment. -/
def Track.NamesAligned (t : Track) : Prop :=
  t.waypoint_names.length = t.waypoints.length ∧
    t.segment_names.length = t.segment_starts.length

/-- Adjacent elements strictly increase. -/
def strictlyIncreasing : List ℕ → Bool
  | [] => true
  | [_] => true
  | a :: b :: l => decide (a < b) && strictlyIncreasing (b :: l)

/-- Well-formedness of a track's internal representation: segment start
indices are strictly increasing and in range, the first segment starts at
point 0, an unfinished segment exists, and name storage is aligned. -/
def Track.WF (t : Track) : Prop :=
  strictlyIncreasing t.segment_starts = true ∧
    (t.segment_starts.all (fun s => decide (s < t.segment_points.length)) = true) ∧
    (t.segment_points ≠ [] → t.segment_starts.head? = some 0) ∧
    (t.current_segment_finished = false → t.segment_starts ≠ []) ∧
    t.NamesAligned

/-- A track-building operation, for stating properties of arbitrary call
sequences. -/
inductive TrackOp where
  | append : TrackPoint → TrackOp
  | finish : TrackOp

/-- Apply one operation to a track. -/
def applyOp (t : Track) : TrackOp → Track
  | TrackOp.append p => t.appendTrackPoint p
  | TrackOp.finish => t.finishCurrentSegment

/-- Apply a sequence of operations to a track. -/
def applyOps (t : Track) (ops : List TrackOp) : Track :=
  ops.foldl applyOp t

/-- A freshly constructed, empty track with the given georeferencing. -/
def emptyTrack (g : Georeferencing) : Track :=
  { map_georef := g }

/-- A point without derived map coordinates, as produced by the decoder. -/
def stripPoint (p : TrackPoint) : TrackPoint :=
  { gps_coord := p.gps_coord
    datetime := p.datetime
    elevation := p.elevation
    hDOP := p.hDOP }

/-- Every point element of a GPX document: the `wpt` elements and every
`trkpt` of every `trkseg` of every `trk`. -/
def GpxDoc.allPoints (doc : GpxDoc) : List GpxPoint :=
  doc.wpts ++ doc.trks.flatten.flatten

/-- A mandatory coordinate attribute is usable iff it is present and
parseable as a decimal number. -/
def goodCoord : Option RawNum → Bool
  | some (RawNum.parsed _) => true
  | _ => false

/-- A concrete georeferencing used in concrete evaluations. -/
def georefW : Georeferencing :=
  { toMapCoordF := fun ll => ⟨ll.lat, ll.lon⟩, crsSpec := "EPSG:4326" }

/-- A concrete track point with every optional attribute present. -/
def pointW1 : TrackPoint :=
  { gps_coord := ⟨1, 2⟩, datetime := some 5, elevation := GpxNum.val 7,
    hDOP := GpxNum.val 3, map_coord := ⟨0, 0⟩ }

/-- A concrete track point with every optional attribute absent. -/
def pointW2 : TrackPoint :=
  { gps_coord := ⟨3, 4⟩ }

/-- Another concrete track point. -/
def pointW3 : TrackPoint :=
  { gps_coord := ⟨5, 6⟩, datetime := some 11 }

/-- A concrete well-formed track: one named waypoint and two segments of
two and one points. -/
def trackW : Track :=
  { waypoints := [pointW2]
    waypoint_names := ["Start"]
    segment_points := [pointW1, pointW2, pointW3]
    segment_starts := [0, 2]
    segment_names := ["", ""]
    map_georef := georefW
    current_segment_finished := true }

/-- A concrete GPX document whose only `trkpt` lacks the `lon` attribute. -/
def docBad : GpxDoc :=
  { wpts := [], trks := [[[{ lat := some (RawNum.parsed 1) }]]] }

/-- A concrete GPX document with good coordinates but a malformed `ele`, a
malformed `time`, a malformed `hdop` and a malformed waypoint `name`. -/
def docLenient : GpxDoc :=
  { wpts := [{ lat := some (RawNum.parsed 1), lon := some (RawNum.parsed 2),
               ele := some RawNum.unparseable, time := some RawTime.unparseable,
               hdop := some RawNum.unparseable,
               name := some RawText.unparseable }]
    trks := [] }

/-! ## Basic facts about the operations -/

theorem pushPoint_of_finished {t : Track} {q : TrackPoint}
    (h : t.current_segment_finished = true) :
    t.pushPoint q =
      { t with
        segment_points := t.segment_points ++ [q],
        segment_starts := t.segment_starts ++ [t.segment_points.length],
        segment_names := t.segment_names ++ [""],
        current_segment_finished := false } := by
  simp [Track.pushPoint, h]

theorem pushPoint_of_open {t : Track} {q : TrackPoint}
    (h : t.current_segment_finished = false) :
    t.pushPoint q = { t with segment_points := t.segment_points ++ [q] } := by
  simp [Track.pushPoint, h]

theorem map_georef_pushPoint (t : Track) (q : TrackPoint) :
    (t.pushPoint q).map_georef = t.map_georef := by
  unfold Track.pushPoint
  split <;> rfl

theorem waypoints_pushPoint (t : Track) (q : TrackPoint) :
    (t.pushPoint q).waypoints = t.waypoints := by
  unfold Track.pushPoint
  split <;> rfl

theorem waypoint_names_pushPoint (t : Track) (q : TrackPoint) :
    (t.pushPoint q).waypoint_names = t.waypoint_names := by
  unfold Track.pushPoint
  split <;> rfl

theorem projPoint_gps_coord (g : Georeferencing) (p : TrackPoint) :
    (projPoint g p).gps_coord = p.gps_coord := rfl

theorem projPoint_datetime (g : Georeferencing) (p : TrackPoint) :
    (projPoint g p).datetime = p.datetime := rfl

theorem projPoint_elevation (g : Georeferencing) (p : TrackPoint) :
    (projPoint g p).elevation = p.elevation := rfl

theorem projPoint_hDOP (g : Georeferencing) (p : TrackPoint) :
    (projPoint g p).hDOP = p.hDOP := rfl

theorem projPoint_map_coord (g : Georeferencing) (p : TrackPoint) :
    (projPoint g p).map_coord = g.toMapCoordF p.gps_coord := rfl

/-! ## Facts about strictlyIncreasing -/

theorem strictlyIncreasing_tail {a : ℕ} {l : List ℕ}
    (h : strictlyIncreasing (a :: l) = true) : strictlyIncreasing l = true := by
  cases l with
  | nil => rfl
  | cons b m =>
      have h2 := h
      unfold strictlyIncreasing at h2
      exact (Bool.and_eq_true_iff.mp h2).2

theorem strictlyIncreasing_append_last {S : List ℕ} {n : ℕ}
    (hsi : strictlyIncreasing S = true) (hlt : ∀ s ∈ S, s < n) :
    strictlyIncreasing (S ++ [n]) = true := by
  induction S with
  | nil => rfl
  | cons s rest ih =>
      cases rest with
      | nil =>
          have hs : s < n := hlt s (by simp)
          simp [strictlyIncreasing, hs]
      | cons r rest2 =>
          have h2 := hsi
          unfold strictlyIncreasing at h2
          have hparts := Bool.and_eq_true_iff.mp h2
          have ih2 := ih hparts.2 (fun x hx => hlt x (by simp [hx]))
          have hsr : s < r := of_decide_eq_true hparts.1
          simp only [List.cons_append] at ih2 ⊢
          unfold strictlyIncreasing
          simp [hsr]
          exact ih2

/-! ## Facts about segSlices -/

theorem segSlices_length (S : List ℕ) (total : ℕ) :
    (segSlices S total).length = S.length := by
  induction S with
  | nil => rfl
  | cons s rest ih => simp [segSlices, ih]

theorem segSlices_append_last (S : List ℕ) (n total : ℕ) :
    segSlices (S ++ [n]) total = segSlices S n ++ [(n, total)] := by
  induction S with
  | nil => rfl
  | cons s rest ih =>
      cases rest with
      | nil => rfl
      | cons r rest2 =>
          simp only [List.cons_append] at ih ⊢
          unfold segSlices
          simp only [List.cons_append, List.head?_cons, Option.getD_some]
          rw [ih]

theorem segSlices_mem_bounds {S : List ℕ} {total : ℕ}
    (hsi : strictlyIncreasing S = true) (hlt : ∀ s ∈ S, s < total) :
    ∀ se ∈ segSlices S total, se.1 < se.2 ∧ se.2 ≤ total := by
  induction S with
  | nil => intro se hse; simp [segSlices] at hse
  | cons s rest ih =>
      intro se hse
      unfold segSlices at hse
      rcases List.mem_cons.mp hse with h | h
      · subst h
        cases rest with
        | nil =>
            refine ⟨hlt s (by simp), le_refl _⟩
        | cons r rest2 =>
            simp only [List.head?_cons, Option.getD_some]
            have h2 := hsi
            unfold strictlyIncreasing at h2
            have hparts := Bool.and_eq_true_iff.mp h2
            exact ⟨of_decide_eq_true hparts.1, le_of_lt (hlt r (by simp))⟩
      · exact ih (strictlyIncreasing_tail hsi)
          (fun x hx => hlt x (by simp [hx])) se h

theorem segSlices_getElem? (S : List ℕ) (total : ℕ) :
    ∀ i : ℕ, (segSlices S total)[i]? =
      (S[i]?).map (fun s => (s, (S[i + 1]?).getD total)) := by
  induction S with
  | nil => intro i; simp [segSlices]
  | cons s rest ih =>
      intro i
      cases i with
      | zero =>
          cases rest with
          | nil => simp [segSlices]
          | cons r rest2 => simp [segSlices]
      | succ j =>
          simp only [segSlices, List.getElem?_cons_succ]
          exact ih j

/-! ## Run lemmas: folding point pushes over a track -/

theorem run_open (k : TrackPoint → TrackPoint) :
    ∀ (pts : List TrackPoint) (t : Track), t.current_segment_finished = false →
      pts.foldl (fun u p => u.pushPoint (k p)) t =
        { t with segment_points := t.segment_points ++ pts.map k } := by
  intro pts
  induction pts with
  | nil => intro t ht; simp
  | cons p rest ih =>
      intro t ht
      simp only [List.foldl_cons, List.map_cons]
      rw [pushPoint_of_open ht,
        ih { t with segment_points := t.segment_points ++ [k p] } ht]
      simp

theorem run_finished (k : TrackPoint → TrackPoint) {t : Track}
    {pts : List TrackPoint} (ht : t.current_segment_finished = true)
    (hne : pts ≠ []) :
    pts.foldl (fun u p => u.pushPoint (k p)) t =
      { t with
        segment_points := t.segment_points ++ pts.map k,
        segment_starts := t.segment_starts ++ [t.segment_points.length],
        segment_names := t.segment_names ++ [""],
        current_segment_finished := false } := by
  cases pts with
  | nil => exact absurd rfl hne
  | cons p rest =>
      simp only [List.foldl_cons, List.map_cons]
      rw [pushPoint_of_finished ht]
      rw [run_open k rest
        { t with
          segment_points := t.segment_points ++ [k p],
          segment_starts := t.segment_starts ++ [t.segment_points.length],
          segment_names := t.segment_names ++ [""],
          current_segment_finished := false } rfl]
      simp

/-! ## Unpacking well-formedness -/

theorem wf_si {t : Track} (h : t.WF) :
    strictlyIncreasing t.segment_starts = true := h.1

theorem wf_starts_lt {t : Track} (h : t.WF) :
    ∀ s ∈ t.segment_starts, s < t.segment_points.length := by
  intro s hs
  have h2 := h.2.1
  rw [List.all_eq_true] at h2
  exact of_decide_eq_true (h2 s hs)

theorem wf_head0 {t : Track} (h : t.WF) :
    t.segment_points ≠ [] → t.segment_starts.head? = some 0 := h.2.2.1

theorem wf_open_starts {t : Track} (h : t.WF) :
    t.current_segment_finished = false → t.segment_starts ≠ [] := h.2.2.2.1

theorem wf_names {t : Track} (h : t.WF) : t.NamesAligned := h.2.2.2.2

theorem points_ne_nil_of_starts_ne_nil {t : Track} (h : t.WF)
    (hs : t.segment_starts ≠ []) : t.segment_points ≠ [] := by
  cases hss : t.segment_starts with
  | nil => exact absurd hss hs
  | cons s rest =>
      have hlt := wf_starts_lt h s (by rw [hss]; simp)
      intro hp
      rw [hp] at hlt
      simp at hlt

/-! ## Preservation of well-formedness -/

theorem wf_pushPoint {t : Track} (h : t.WF) (q : TrackPoint) :
    (t.pushPoint q).WF := by
  by_cases hf : t.current_segment_finished = true
  · rw [pushPoint_of_finished hf]
    refine ⟨?_, ?_, ?_, ?_, ?_, ?_⟩
    · exact strictlyIncreasing_append_last (wf_si h) (wf_starts_lt h)
    · rw [List.all_eq_true]
      intro s hs
      rcases List.mem_append.mp hs with hm | hm
      · have := wf_starts_lt h s hm
        simp only [List.length_append, List.length_cons, List.length_nil]
        exact decide_eq_true (by omega)
      · simp only [List.mem_singleton] at hm
        subst hm
        simp only [List.length_append, List.length_cons, List.length_nil]
        exact decide_eq_true (by omega)
    · intro _
      cases hss : t.segment_starts with
      | nil =>
          have hp : t.segment_points = [] := by
            by_contra hne
            have h0 := wf_head0 h hne
            rw [hss] at h0
            simp at h0
          simp [hss, hp]
      | cons s rest =>
          have hp : t.segment_points ≠ [] := by
            have hlt := wf_starts_lt h s (by rw [hss]; simp)
            intro hpe
            rw [hpe] at hlt
            simp at hlt
          have h0 := wf_head0 h hp
          rw [hss] at h0
          simp only [List.head?_cons, Option.some.injEq] at h0
          simp [hss, h0]
    · intro _
      simp
    · exact (@wf_names t h).1
    · simp only [List.length_append, List.length_cons, List.length_nil]
      rw [(@wf_names t h).2]
  · have hf2 : t.current_segment_finished = false := by
      cases hcs : t.current_segment_finished
      · rfl
      · exact absurd hcs hf
    rw [pushPoint_of_open hf2]
    refine ⟨@wf_si t h, ?_, ?_, ?_, (@wf_names t h).1, (@wf_names t h).2⟩
    · rw [List.all_eq_true]
      intro s hs
      have := wf_starts_lt h s hs
      simp only [List.length_append, List.length_cons, List.length_nil]
      exact decide_eq_true (by omega)
    · intro _
      exact @wf_head0 t h
        (@points_ne_nil_of_starts_ne_nil t h (@wf_open_starts t h hf2))
    · intro _
      exact @wf_open_starts t h hf2

theorem wf_finish {t : Track} (h : t.WF) : t.finishCurrentSegment.WF := by
  obtain ⟨h1, h2, h3, _, h5⟩ := h
  exact ⟨h1, h2, h3, fun hc => by simp [Track.finishCurrentSegment] at hc, h5⟩

theorem wf_pushWaypoint {t : Track} (h : t.WF) (q : TrackPoint) (n : String) :
    (t.pushWaypoint q n).WF := by
  obtain ⟨h1, h2, h3, h4, h5⟩ := h
  refine ⟨h1, h2, h3, h4, ?_, h5.2⟩
  simp only [Track.pushWaypoint, List.length_append, List.length_cons,
    List.length_nil]
  rw [h5.1]

theorem wf_clear (t : Track) : t.clear.WF :=
  ⟨rfl, rfl, fun hc => absurd rfl hc,
    fun hc => by simp [Track.clear] at hc, rfl, rfl⟩

theorem wf_emptyTrack (g : Georeferencing) : (emptyTrack g).WF :=
  ⟨rfl, rfl, fun hc => absurd rfl hc,
    fun hc => by simp [emptyTrack] at hc, rfl, rfl⟩

theorem wf_run (k : TrackPoint → TrackPoint) :
    ∀ (pts : List TrackPoint) (t : Track), t.WF →
      (pts.foldl (fun u p => u.pushPoint (k p)) t).WF := by
  intro pts
  induction pts with
  | nil => intro t h; exact h
  | cons p rest ih => intro t h; exact ih _ (wf_pushPoint h _)

theorem wf_applyOp {t : Track} (h : t.WF) (op : TrackOp) : (applyOp t op).WF := by
  cases op with
  | append p => exact wf_pushPoint h _
  | finish => exact wf_finish h

theorem wf_applyOps (ops : List TrackOp) :
    ∀ t : Track, t.WF → (applyOps t ops).WF := by
  induction ops with
  | nil => intro t h; exact h
  | cons op rest ih =>
      intro t h
      exact ih _ (wf_applyOp h op)

/-! ## Computing the segments view -/

theorem segments_clear (t : Track) : t.clear.segments = [] := rfl

theorem segments_finish (t : Track) :
    t.finishCurrentSegment.segments = t.segments := rfl

theorem segments_pushWaypoint (t : Track) (q : TrackPoint) (n : String) :
    (t.pushWaypoint q n).segments = t.segments := rfl

theorem segments_emptyTrack (g : Georeferencing) :
    (emptyTrack g).segments = [] := rfl

theorem slices_map_extend {S : List ℕ} {total : ℕ} {P Q : List TrackPoint}
    (hsi : strictlyIncreasing S = true) (hlt : ∀ s ∈ S, s < total)
    (htot : total ≤ P.length) :
    (segSlices S total).map
        (fun se => ((P ++ Q).drop se.1).take (se.2 - se.1)) =
      (segSlices S total).map
        (fun se => (P.drop se.1).take (se.2 - se.1)) := by
  apply List.map_congr_left
  intro se hse
  obtain ⟨h1, h2⟩ := segSlices_mem_bounds hsi hlt se hse
  have hs1 : se.1 ≤ P.length := by omega
  rw [List.drop_append_of_le_length hs1]
  have hlen : se.2 - se.1 ≤ (P.drop se.1).length := by
    rw [List.length_drop]
    omega
  rw [List.take_append_of_le_length hlen]

theorem segments_of_extended (S : List ℕ) (P X : List TrackPoint)
    (hsi : strictlyIncreasing S = true) (hlt : ∀ s ∈ S, s < P.length) :
    (segSlices (S ++ [P.length]) (P ++ X).length).map
        (fun se => ((P ++ X).drop se.1).take (se.2 - se.1)) =
      (segSlices S P.length).map
        (fun se => (P.drop se.1).take (se.2 - se.1)) ++ [X] := by
  rw [List.length_append, segSlices_append_last, List.map_append]
  congr 1
  · exact slices_map_extend hsi hlt (le_refl _)
  · simp [List.drop_left]

theorem segments_run_finished (k : TrackPoint → TrackPoint) {t : Track}
    {pts : List TrackPoint} (h : t.WF)
    (ht : t.current_segment_finished = true) (hne : pts ≠ []) :
    (pts.foldl (fun u p => u.pushPoint (k p)) t).segments =
      t.segments ++ [pts.map k] := by
  rw [run_finished k ht hne]
  exact segments_of_extended t.segment_starts t.segment_points (pts.map k)
    (wf_si h) (wf_starts_lt h)

theorem segments_pushPoint_finished {t : Track} (h : t.WF)
    (ht : t.current_segment_finished = true) (q : TrackPoint) :
    (t.pushPoint q).segments = t.segments ++ [[q]] := by
  have h2 := @segments_run_finished (fun p => p) t [q] h ht (by simp)
  simpa using h2

theorem strictlyIncreasing_concat_parts {S : List ℕ} {n : ℕ}
    (h : strictlyIncreasing (S ++ [n]) = true) :
    strictlyIncreasing S = true ∧ ∀ s ∈ S, s < n := by
  induction S with
  | nil => exact ⟨rfl, by intro s hs; simp at hs⟩
  | cons s rest ih =>
      cases rest with
      | nil =>
          simp only [List.nil_append, List.cons_append] at h
          unfold strictlyIncreasing at h
          have hparts := Bool.and_eq_true_iff.mp h
          refine ⟨rfl, ?_⟩
          intro x hx
          simp only [List.mem_singleton] at hx
          subst hx
          exact of_decide_eq_true hparts.1
      | cons r rest2 =>
          simp only [List.cons_append] at h ih
          have h2 := h
          unfold strictlyIncreasing at h2
          have hparts := Bool.and_eq_true_iff.mp h2
          obtain ⟨ihsi, ihlt⟩ := ih hparts.2
          have hsr : s < r := of_decide_eq_true hparts.1
          constructor
          · unfold strictlyIncreasing
            rw [Bool.and_eq_true_iff]
            exact ⟨decide_eq_true hsr, ihsi⟩
          · intro x hx
            rcases List.mem_cons.mp hx with hx | hx
            · subst hx
              have hr : r < n := ihlt r (by simp)
              omega
            · exact ihlt x hx

theorem segments_pushPoint_open {t : Track} (h : t.WF)
    (ht : t.current_segment_finished = false) (q : TrackPoint) :
    (t.pushPoint q).segments =
      t.segments.dropLast ++ [t.segments.getLastD [] ++ [q]] := by
  rcases List.eq_nil_or_concat t.segment_starts with hS | ⟨S0, sl, hS⟩
  · exact absurd hS (wf_open_starts h ht)
  · rw [List.concat_eq_append] at hS
    obtain ⟨hsi0, hlt0⟩ := strictlyIncreasing_concat_parts (hS ▸ wf_si h)
    have hslP : sl < t.segment_points.length := by
      apply wf_starts_lt h
      rw [hS]
      simp
    have hsegs : t.segments =
        (segSlices S0 sl).map
          (fun se => (t.segment_points.drop se.1).take (se.2 - se.1)) ++
        [t.segment_points.drop sl] := by
      show (segSlices t.segment_starts t.segment_points.length).map
          (fun se => (t.segment_points.drop se.1).take (se.2 - se.1)) = _
      rw [hS, segSlices_append_last, List.map_append]
      congr 1
      simp only [List.map_cons, List.map_nil]
      congr 1
      apply List.take_of_length_le
      rw [List.length_drop]
    rw [pushPoint_of_open ht]
    have hnew : ({ t with segment_points := t.segment_points ++ [q] } :
        Track).segments =
        (segSlices S0 sl).map
          (fun se => (t.segment_points.drop se.1).take (se.2 - se.1)) ++
        [t.segment_points.drop sl ++ [q]] := by
      show (segSlices t.segment_starts (t.segment_points ++ [q]).length).map
          (fun se => ((t.segment_points ++ [q]).drop se.1).take (se.2 - se.1)) = _
      rw [hS, List.length_append, segSlices_append_last, List.map_append]
      congr 1
      · exact slices_map_extend hsi0 hlt0 (le_of_lt hslP)
      · simp only [List.map_cons, List.map_nil]
        congr 1
        rw [List.drop_append_of_le_length (le_of_lt hslP)]
        apply List.take_of_length_le
        simp only [List.length_append, List.length_drop, List.length_cons,
          List.length_nil]
        omega
    rw [hnew, hsegs]
    rw [List.dropLast_concat, List.getLastD_concat]

/-! ## Getters against the segments view -/

theorem segments_length (t : Track) : t.segments.length = t.getNumSegments := by
  simp [Track.segments, segSlices_length, Track.getNumSegments]

theorem segments_getElem_spec {t : Track} (h : t.WF) {i : ℕ}
    (hi : i < t.getNumSegments) :
    t.segments[i]? =
      some ((t.segment_points.drop (t.segmentStart i)).take
        (t.segmentEnd i - t.segmentStart i)) ∧
    t.segmentStart i < t.segmentEnd i ∧
    t.segmentEnd i ≤ t.segment_points.length := by
  have hiS : i < t.segment_starts.length := hi
  have hs : t.segment_starts[i]? = some (t.segment_starts[i]) :=
    List.getElem?_eq_getElem hiS
  have hstart : t.segmentStart i = t.segment_starts[i] := by
    unfold Track.segmentStart
    rw [hs]
    rfl
  have hslice : (segSlices t.segment_starts t.segment_points.length)[i]? =
      some (t.segmentStart i, t.segmentEnd i) := by
    rw [segSlices_getElem?, hs, Option.map_some']
    rw [hstart]
    rfl
  have hmem := List.getElem?_mem hslice
  obtain ⟨hb1, hb2⟩ :=
    segSlices_mem_bounds (wf_si h) (wf_starts_lt h) _ hmem
  refine ⟨?_, hb1, hb2⟩
  show ((segSlices t.segment_starts t.segment_points.length).map
      (fun se => (t.segment_points.drop se.1).take (se.2 - se.1)))[i]? = _
  rw [List.getElem?_map, hslice, Option.map_some']

theorem getSegmentPointCount_eq {t : Track} (h : t.WF) (i : ℕ) :
    t.getSegmentPointCount i = (t.segments[i]?).map List.length := by
  by_cases hi : i < t.getNumSegments
  · obtain ⟨hseg, hb1, hb2⟩ := segments_getElem_spec h hi
    rw [hseg]
    unfold Track.getSegmentPointCount
    rw [if_pos hi]
    simp only [Option.map_some']
    congr 1
    rw [List.length_take, List.length_drop]
    omega
  · unfold Track.getSegmentPointCount
    rw [if_neg hi]
    have hnone : t.segments[i]? = none := by
      apply List.getElem?_eq_none
      rw [segments_length]
      omega
    rw [hnone]
    rfl

theorem getSegmentPoint_eq {t : Track} (h : t.WF) (i j : ℕ) :
    t.getSegmentPoint i j = (t.segments[i]?).bind (fun seg => seg[j]?) := by
  by_cases hi : i < t.getNumSegments
  · obtain ⟨hseg, hb1, hb2⟩ := segments_getElem_spec h hi
    have hcount : t.getSegmentPointCount i =
        some (t.segmentEnd i - t.segmentStart i) := by
      unfold Track.getSegmentPointCount
      rw [if_pos hi]
    unfold Track.getSegmentPoint
    rw [hcount, hseg, Option.some_bind, Option.some_bind]
    by_cases hj : j < t.segmentEnd i - t.segmentStart i
    · rw [if_pos hj, List.getElem?_take_of_lt hj, List.getElem?_drop]
    · rw [if_neg hj]
      symm
      apply List.getElem?_eq_none
      rw [List.length_take, List.length_drop]
      omega
  · have hcnone : t.getSegmentPointCount i = none := by
      unfold Track.getSegmentPointCount
      rw [if_neg hi]
    have hnone : t.segments[i]? = none := by
      apply List.getElem?_eq_none
      rw [segments_length]
      omega
    unfold Track.getSegmentPoint
    rw [hcnone, hnone, Option.none_bind, Option.none_bind]

theorem segments_ne_nil {t : Track} (h : t.WF) :
    ∀ seg ∈ t.segments, seg ≠ [] := by
  intro seg hseg
  obtain ⟨i, hi, heq⟩ := List.getElem_of_mem hseg
  have hi2 : i < t.getNumSegments := by
    rw [← segments_length]
    exact hi
  obtain ⟨hsome, hb1, hb2⟩ := segments_getElem_spec h hi2
  rw [List.getElem?_eq_getElem hi, heq] at hsome
  have hlen : seg.length = t.segmentEnd i - t.segmentStart i := by
    have := congrArg (Option.map List.length) hsome
    simp only [Option.map_some'] at this
    rw [Option.some.injEq] at this
    rw [this, List.length_take, List.length_drop]
    omega
  intro hnil
  rw [hnil] at hlen
  simp only [List.length_nil] at hlen
  omega

/-! ## Building content by appends -/

theorem run_waypoints (k : TrackPoint → TrackPoint) :
    ∀ (wps : List (TrackPoint × String)) (t : Track),
      wps.foldl (fun s w => s.pushWaypoint (k w.1) w.2) t =
        { t with
          waypoints := t.waypoints ++ wps.map (fun w => k w.1),
          waypoint_names := t.waypoint_names ++ wps.map Prod.snd } := by
  intro wps
  induction wps with
  | nil => intro t; simp
  | cons w rest ih =>
      intro t
      simp only [List.foldl_cons, List.map_cons]
      rw [ih (t.pushWaypoint (k w.1) w.2)]
      simp [Track.pushWaypoint]

theorem segsFold_spec (k : TrackPoint → TrackPoint) :
    ∀ (segs : List (List TrackPoint)) (u : Track), u.WF →
      u.current_segment_finished = true → (∀ s ∈ segs, s ≠ []) →
      (segs.foldl
          (fun s seg =>
            (seg.foldl (fun a p => a.pushPoint (k p)) s).finishCurrentSegment)
          u).segments = u.segments ++ segs.map (List.map k) ∧
      (segs.foldl
          (fun s seg =>
            (seg.foldl (fun a p => a.pushPoint (k p)) s).finishCurrentSegment)
          u).WF ∧
      (segs.foldl
          (fun s seg =>
            (seg.foldl (fun a p => a.pushPoint (k p)) s).finishCurrentSegment)
          u).current_segment_finished = true ∧
      (segs.foldl
          (fun s seg =>
            (seg.foldl (fun a p => a.pushPoint (k p)) s).finishCurrentSegment)
          u).waypoints = u.waypoints ∧
      (segs.foldl
          (fun s seg =>
            (seg.foldl (fun a p => a.pushPoint (k p)) s).finishCurrentSegment)
          u).waypoint_names = u.waypoint_names ∧
      (segs.foldl
          (fun s seg =>
            (seg.foldl (fun a p => a.pushPoint (k p)) s).finishCurrentSegment)
          u).map_georef = u.map_georef := by
  intro segs
  induction segs with
  | nil =>
      intro u hWF hflag _
      refine ⟨by simp, hWF, hflag, rfl, rfl, rfl⟩
  | cons seg rest ih =>
      intro u hWF hflag hne
      have hsegne : seg ≠ [] := hne seg (by simp)
      have hrestne : ∀ s ∈ rest, s ≠ [] := fun s hs => hne s (by simp [hs])
      simp only [List.foldl_cons, List.map_cons]
      have hvWF : ((seg.foldl (fun a p => a.pushPoint (k p))
          u).finishCurrentSegment).WF :=
        wf_finish (wf_run k seg u hWF)
      obtain ⟨ih1, ih2, ih3, ih4, ih5, ih6⟩ :=
        ih ((seg.foldl (fun a p => a.pushPoint (k p)) u).finishCurrentSegment)
          hvWF rfl hrestne
      have hrun := @run_finished k u seg hflag hsegne
      refine ⟨?_, ih2, ih3, ?_, ?_, ?_⟩
      · rw [ih1]
        have hsegeq : ((seg.foldl (fun a p => a.pushPoint (k p))
            u).finishCurrentSegment).segments = u.segments ++ [seg.map k] := by
          rw [segments_finish]
          exact segments_run_finished k hWF hflag hsegne
        rw [hsegeq]
        simp
      · rw [ih4]
        show (seg.foldl (fun a p => a.pushPoint (k p)) u).waypoints = _
        rw [hrun]
      · rw [ih5]
        show (seg.foldl (fun a p => a.pushPoint (k p)) u).waypoint_names = _
        rw [hrun]
      · rw [ih6]
        show (seg.foldl (fun a p => a.pushPoint (k p)) u).map_georef = _
        rw [hrun]

/-! ## Codec lemmas -/

theorem parseOptNum_encodeNum (e : GpxNum) : parseOptNum (encodeNum e) = e := by
  cases e <;> rfl

theorem parseOptTime_encodeTime (d : Option ℕ) :
    parseOptTime (encodeTime d) = d := by
  cases d <;> rfl

theorem decodeTrkpt_save (p : TrackPoint) :
    decodeTrkpt p.save = some (stripPoint p) := by
  unfold decodeTrkpt TrackPoint.save stripPoint
  simp only [parseOptNum_encodeNum, parseOptTime_encodeTime]

theorem decodeWpt_saveWpt (p : TrackPoint) (n : String) :
    decodeWpt (saveWpt p n) = some (stripPoint p, n) := by
  unfold decodeWpt saveWpt TrackPoint.save
  by_cases hn : n = ""
  · rw [if_pos hn]
    subst hn
    unfold decodeTrkpt stripPoint parseOptName
    simp only [parseOptNum_encodeNum, parseOptTime_encodeTime]
    rfl
  · rw [if_neg hn]
    unfold decodeTrkpt stripPoint parseOptName
    simp only [parseOptNum_encodeNum, parseOptTime_encodeTime]
    rfl

theorem mapOrNone_eq_none_iff {α β : Type} (f : α → Option β) :
    ∀ l : List α, (mapOrNone f l = none ↔ ∃ a ∈ l, f a = none) := by
  intro l
  induction l with
  | nil => simp [mapOrNone]
  | cons a m ih =>
      constructor
      · intro h
        unfold mapOrNone at h
        cases hfa : f a with
        | none => exact ⟨a, by simp, hfa⟩
        | some b =>
            rw [hfa] at h
            cases hm : mapOrNone f m with
            | none =>
                obtain ⟨x, hx, hfx⟩ := ih.mp hm
                exact ⟨x, by simp [hx], hfx⟩
            | some bs =>
                rw [hm] at h
                simp at h
      · intro hex
        obtain ⟨x, hx, hfx⟩ := hex
        unfold mapOrNone
        rcases List.mem_cons.mp hx with hxa | hxm
        · subst hxa
          rw [hfx]
        · rw [ih.mpr ⟨x, hxm, hfx⟩]
          cases f a <;> rfl

theorem mapOrNone_map {α β γ : Type} (f : β → Option γ) (g : α → β)
    (h : α → γ) :
    ∀ l : List α, (∀ a ∈ l, f (g a) = some (h a)) →
      mapOrNone f (l.map g) = some (l.map h) := by
  intro l
  induction l with
  | nil => intro _; rfl
  | cons a m ih =>
      intro hp
      simp only [List.map_cons]
      unfold mapOrNone
      rw [hp a (by simp), ih (fun x hx => hp x (by simp [hx]))]

/-! ## Point and track equality lemmas -/

theorem sentinelEq_refl (a : GpxNum) : sentinelEq a a = true := by
  cases a with
  | nan => rfl
  | val x => simp [sentinelEq]

theorem trackPointEq_of_fields {p q : TrackPoint}
    (h1 : p.gps_coord = q.gps_coord) (h2 : p.datetime = q.datetime)
    (h3 : p.elevation = q.elevation) (h4 : p.hDOP = q.hDOP) :
    trackPointEq p q = true := by
  unfold trackPointEq
  rw [h1, h2, h3, h4]
  simp [sentinelEq_refl]

theorem listEqBy_map_map {α β : Type} (f : β → β → Bool) (g1 g2 : α → β) :
    ∀ l : List α, (∀ a ∈ l, f (g1 a) (g2 a) = true) →
      listEqBy f (l.map g1) (l.map g2) = true := by
  intro l
  induction l with
  | nil => intro _; rfl
  | cons a m ih =>
      intro hp
      simp only [List.map_cons]
      unfold listEqBy
      rw [hp a (by simp), ih (fun x hx => hp x (by simp [hx]))]
      rfl

theorem trackPointEq_k_strip (g : Georeferencing) (b : Bool) (p : TrackPoint) :
    trackPointEq
      ((fun x => if b then projPoint g x else x) (stripPoint p)) p = true := by
  cases b with
  | false => exact trackPointEq_of_fields rfl rfl rfl rfl
  | true => exact trackPointEq_of_fields rfl rfl rfl rfl

theorem wf_run_waypoints (k : TrackPoint → TrackPoint) :
    ∀ (wps : List (TrackPoint × String)) (t : Track), t.WF →
      (wps.foldl (fun s w => s.pushWaypoint (k w.1) w.2) t).WF := by
  intro wps
  induction wps with
  | nil => intro t h; exact h
  | cons w rest ih => intro t h; exact ih _ (wf_pushWaypoint h _ _)

theorem decodeDoc_saveTo (t : Track) :
    decodeDoc t.saveTo =
      some ((t.waypoints.zip t.waypoint_names).map
          (fun w => (stripPoint w.1, w.2)),
        t.segments.map (fun seg => seg.map stripPoint)) := by
  unfold decodeDoc Track.saveTo
  dsimp only
  rw [mapOrNone_map decodeWpt (fun w => saveWpt w.1 w.2)
    (fun w => (stripPoint w.1, w.2)) (t.waypoints.zip t.waypoint_names)
    (fun a _ => decodeWpt_saveWpt a.1 a.2)]
  have hfl : ([t.segments.map (fun seg => seg.map TrackPoint.save)] :
      List (List (List GpxPoint))).flatten =
      t.segments.map (fun seg => seg.map TrackPoint.save) := by
    simp
  rw [hfl]
  rw [mapOrNone_map (mapOrNone decodeTrkpt)
    (fun seg => seg.map TrackPoint.save)
    (fun seg => seg.map stripPoint) t.segments
    (fun seg _ =>
      mapOrNone_map decodeTrkpt TrackPoint.save stripPoint seg
        (fun p _ => decodeTrkpt_save p))]

theorem listEqBy_map_left {α : Type} (f : α → α → Bool) (g : α → α) :
    ∀ l : List α, (∀ a ∈ l, f (g a) a = true) →
      listEqBy f (l.map g) l = true := by
  intro l
  induction l with
  | nil => intro _; rfl
  | cons a m ih =>
      intro hp
      simp only [List.map_cons]
      unfold listEqBy
      rw [hp a (by simp), ih (fun x hx => hp x (by simp [hx]))]
      rfl

theorem run_waypoints_clear_fields (k : TrackPoint → TrackPoint)
    (wps : List (TrackPoint × String)) (u : Track) :
    (wps.foldl (fun s w => s.pushWaypoint (k w.1) w.2)
        u.clear).current_segment_finished = true ∧
    (wps.foldl (fun s w => s.pushWaypoint (k w.1) w.2) u.clear).segments = [] ∧
    (wps.foldl (fun s w => s.pushWaypoint (k w.1) w.2) u.clear).waypoints =
      wps.map (fun w => k w.1) ∧
    (wps.foldl (fun s w => s.pushWaypoint (k w.1) w.2) u.clear).waypoint_names =
      wps.map Prod.snd := by
  rw [run_waypoints k wps u.clear]
  refine ⟨rfl, rfl, ?_, ?_⟩
  · show ([] : List TrackPoint) ++ _ = _
    rw [List.nil_append]
  · show ([] : List String) ++ _ = _
    rw [List.nil_append]

/-- C1: For every valid (well-formed) Track `t`, decoding the GPX document
produced by encoding `t` — into any receiving track `u`, with or without
coordinate projection — succeeds, and the decoded Track is structurally
equal to `t`: waypoints element-wise equal including names, segments
element-wise equal as ordered sequences of TrackPoint, every absent
optional field (NaN elevation, NaN hDOP, invalid timestamp) decoding back
to absent rather than to zero. -/
theorem round_trip_decode_encode (t u : Track) (b : Bool) (h : t.WF) :
    (u.loadFromGPX t.saveTo b).1 = true ∧
    trackEq (u.loadFromGPX t.saveTo b).2 t = true := by
  unfold Track.loadFromGPX
  rw [decodeDoc_saveTo t]
  dsimp only
  refine ⟨rfl, ?_⟩
  unfold buildContent
  have hnse : ∀ s ∈ t.segments.map (fun seg => seg.map stripPoint),
      s ≠ [] := by
    intro s hs
    obtain ⟨seg, hseg, heq⟩ := List.mem_map.mp hs
    have hne := segments_ne_nil h seg hseg
    intro hnil
    rw [← heq] at hnil
    rw [List.map_eq_nil_iff] at hnil
    exact hne hnil
  have hWF1 := wf_run_waypoints
    (fun p => if b then projPoint u.map_georef p else p)
    ((t.waypoints.zip t.waypoint_names).map (fun w => (stripPoint w.1, w.2)))
    u.clear (wf_clear u)
  obtain ⟨hflag1, hsegments1, hw1, hwn1⟩ := run_waypoints_clear_fields
    (fun p => if b then projPoint u.map_georef p else p)
    ((t.waypoints.zip t.waypoint_names).map (fun w => (stripPoint w.1, w.2))) u
  obtain ⟨hseg, _, _, hw, hwn, _⟩ := segsFold_spec
    (fun p => if b then projPoint u.map_georef p else p)
    (t.segments.map (fun seg => seg.map stripPoint))
    (((t.waypoints.zip t.waypoint_names).map
        (fun w => (stripPoint w.1, w.2))).foldl
      (fun s w => s.pushWaypoint
        ((fun p => if b then projPoint u.map_georef p else p) w.1) w.2)
      u.clear)
    hWF1 hflag1 hnse
  unfold trackEq
  rw [hseg, hsegments1, List.nil_append, hw, hw1, hwn, hwn1]
  rw [List.map_map, List.map_map, List.map_map]
  have hle1 : t.waypoints.length ≤ t.waypoint_names.length :=
    le_of_eq ((wf_names h).1.symm)
  have hle2 : t.waypoint_names.length ≤ t.waypoints.length :=
    le_of_eq ((wf_names h).1)
  have hA : listEqBy trackPointEq
      ((t.waypoints.zip t.waypoint_names).map
        ((fun w => (fun p => if b then projPoint u.map_georef p else p) w.1) ∘
          (fun w => (stripPoint w.1, w.2))))
      ((t.waypoints.zip t.waypoint_names).map Prod.fst) = true := by
    apply listEqBy_map_map
    intro a _
    exact trackPointEq_k_strip u.map_georef b a.1
  rw [List.map_fst_zip t.waypoints t.waypoint_names hle1] at hA
  have hBeq : (t.waypoints.zip t.waypoint_names).map
      (Prod.snd ∘ (fun w => (stripPoint w.1, w.2))) = t.waypoint_names := by
    have h0 := List.map_snd_zip t.waypoints t.waypoint_names hle2
    exact h0
  have hC : listEqBy (listEqBy trackPointEq)
      (t.segments.map
        ((fun seg => seg.map
          (fun p => if b then projPoint u.map_georef p else p)) ∘
          (fun seg => seg.map stripPoint)))
      t.segments = true := by
    apply listEqBy_map_left
    intro seg _
    show listEqBy trackPointEq
      ((seg.map stripPoint).map
        (fun p => if b then projPoint u.map_georef p else p)) seg = true
    rw [List.map_map]
    apply listEqBy_map_left
    intro p _
    exact trackPointEq_k_strip u.map_georef b p
  rw [hA, hBeq, hC]
  simp

/-- Witness for C1 at the concrete track `trackW`. -/
theorem round_trip_decode_encode_witness :
    trackW.WF ∧
    (trackW.loadFromGPX trackW.saveTo true).1 = true ∧
    trackEq (trackW.loadFromGPX trackW.saveTo true).2 trackW = true := by
  have hW : trackW.WF :=
    ⟨by decide, by decide, fun _ => by decide, fun _ => by decide,
      by decide, by decide⟩
  exact ⟨hW, (round_trip_decode_encode trackW trackW true hW).1,
    (round_trip_decode_encode trackW trackW true hW).2⟩

/-- C2: decoding failure is atomic.  When `loadFromGPX` reports failure —
and likewise `loadFrom`, including for an unreadable file — the returned
Track is exactly the Track from before the call: segments, waypoints, names
and the segment-open flag are untouched. -/
theorem load_failure_is_atomic (t : Track) (doc : GpxDoc)
    (file : Option GpxDoc) (b : Bool) :
    ((t.loadFromGPX doc b).1 = false → (t.loadFromGPX doc b).2 = t) ∧
    ((t.loadFrom file b).1 = false → (t.loadFrom file b).2 = t) := by
  have hmain : ∀ d : GpxDoc, (t.loadFromGPX d b).1 = false →
      (t.loadFromGPX d b).2 = t := by
    intro d hf
    unfold Track.loadFromGPX at hf ⊢
    cases hd : decodeDoc d with
    | none => rfl
    | some ws =>
        rw [hd] at hf
        simp at hf
  refine ⟨hmain doc, ?_⟩
  intro hf
  cases file with
  | none => rfl
  | some doc2 => exact hmain doc2 hf

/-- Witness for C2: a document whose `trkpt` lacks `lon` fails to decode and
leaves the concrete track `trackW` unchanged, as does an unreadable file. -/
theorem load_failure_is_atomic_witness :
    (trackW.loadFromGPX docBad true).1 = false ∧
    (trackW.loadFromGPX docBad true).2 = trackW ∧
    (trackW.loadFrom none true).2 = trackW := by
  have h1 : (trackW.loadFromGPX docBad true).1 = false := by decide
  exact ⟨h1, (load_failure_is_atomic trackW docBad none true).1 h1,
    (load_failure_is_atomic trackW docBad none true).2 (by decide)⟩

theorem sentinelEq_eq_true_iff (a c : GpxNum) :
    sentinelEq a c = true ↔
      ((a = GpxNum.nan ∧ c = GpxNum.nan) ∨
        ∃ x : ℚ, a = GpxNum.val x ∧ c = GpxNum.val x) := by
  cases a <;> cases c <;> simp [sentinelEq]
  exact eq_comm

/-- C5: two TrackPoints are equal iff position, timestamp (absent matching
absent), elevation and hDOP agree, where the absent numeric sentinel
compares equal to absent — contrary to IEEE float semantics, under which
NaN is unequal to itself — and unequal to every present value. -/
theorem trackPoint_equality_sentinel (p q : TrackPoint) :
    (trackPointEq p q = true ↔
      (p.gps_coord = q.gps_coord ∧ p.datetime = q.datetime ∧
        ((p.elevation = GpxNum.nan ∧ q.elevation = GpxNum.nan) ∨
          ∃ x : ℚ, p.elevation = GpxNum.val x ∧ q.elevation = GpxNum.val x) ∧
        ((p.hDOP = GpxNum.nan ∧ q.hDOP = GpxNum.nan) ∨
          ∃ x : ℚ, p.hDOP = GpxNum.val x ∧ q.hDOP = GpxNum.val x))) ∧
    sentinelEq GpxNum.nan GpxNum.nan = true ∧
    floatEq GpxNum.nan GpxNum.nan = false ∧
    (∀ x : ℚ, sentinelEq GpxNum.nan (GpxNum.val x) = false ∧
      sentinelEq (GpxNum.val x) GpxNum.nan = false) := by
  refine ⟨?_, rfl, rfl, fun x => ⟨rfl, rfl⟩⟩
  unfold trackPointEq
  simp only [Bool.and_eq_true, decide_eq_true_eq, sentinelEq_eq_true_iff]
  constructor
  · rintro ⟨⟨⟨h1, h2⟩, h3⟩, h4⟩
    exact ⟨h1, h2, h3, h4⟩
  · rintro ⟨h1, h2, h3, h4⟩
    exact ⟨⟨⟨h1, h2⟩, h3⟩, h4⟩

/-- C6: `finishCurrentSegment` only sets the segment-open flag — stored
points, segment structure, names and waypoints are untouched, so calling it
on an empty Track or twice in a row changes nothing beyond the flag — and
no sequence of appendTrackPoint / finishCurrentSegment calls starting from
an empty Track ever produces an empty segment. -/
theorem finish_never_creates_empty_segments (t : Track) (g : Georeferencing)
    (ops : List TrackOp) :
    t.finishCurrentSegment.segment_points = t.segment_points ∧
    t.finishCurrentSegment.segment_starts = t.segment_starts ∧
    t.finishCurrentSegment.segment_names = t.segment_names ∧
    t.finishCurrentSegment.waypoints = t.waypoints ∧
    t.finishCurrentSegment.waypoint_names = t.waypoint_names ∧
    t.finishCurrentSegment.map_georef = t.map_georef ∧
    t.finishCurrentSegment.current_segment_finished = true ∧
    (applyOps (emptyTrack g) ops).segments.all
      (fun seg => !seg.isEmpty) = true := by
  refine ⟨rfl, rfl, rfl, rfl, rfl, rfl, rfl, ?_⟩
  rw [List.all_eq_true]
  intro seg hseg
  have hWF := wf_applyOps ops (emptyTrack g) (wf_emptyTrack g)
  have hne := segments_ne_nil hWF seg hseg
  cases seg with
  | nil => exact absurd rfl hne
  | cons a m => rfl

/-- C7: `changeMapGeoreferencing` recomputes the local (map) coordinate of
every stored point — in every segment and in the waypoint list — from that
point's stored geographic position, and leaves geographic coordinates,
timestamps, optional fields, names, segment structure and the segment-open
flag unchanged. -/
theorem changeMapGeoreferencing_reprojects (t : Track) (g : Georeferencing)
    (p : TrackPoint) :
    (t.changeMapGeoreferencing g).segment_points =
      t.segment_points.map (projPoint g) ∧
    (t.changeMapGeoreferencing g).waypoints = t.waypoints.map (projPoint g) ∧
    (t.changeMapGeoreferencing g).segment_starts = t.segment_starts ∧
    (t.changeMapGeoreferencing g).segment_names = t.segment_names ∧
    (t.changeMapGeoreferencing g).waypoint_names = t.waypoint_names ∧
    (t.changeMapGeoreferencing g).current_segment_finished =
      t.current_segment_finished ∧
    (t.changeMapGeoreferencing g).map_georef = g ∧
    (projPoint g p).map_coord = g.toMapCoordF p.gps_coord ∧
    (projPoint g p).gps_coord = p.gps_coord ∧
    (projPoint g p).datetime = p.datetime ∧
    (projPoint g p).elevation = p.elevation ∧
    (projPoint g p).hDOP = p.hDOP :=
  ⟨rfl, rfl, rfl, rfl, rfl, rfl, rfl, rfl, rfl, rfl, rfl, rfl⟩

/-- C8: `calcAveragePosition` returns the arithmetic mean of the latitudes
and of the longitudes over every waypoint and every point of every segment,
and fails (returns `none`, the documented policy) exactly on the empty
Track. -/
theorem calcAveragePosition_mean (t : Track) :
    t.calcAveragePosition =
      if (t.waypoints ++ t.segment_points).length = 0 then none
      else some
        ⟨((t.waypoints ++ t.segment_points).map
            (fun p => p.gps_coord.lat)).sum /
            ((t.waypoints ++ t.segment_points).length : ℚ),
          ((t.waypoints ++ t.segment_points).map
            (fun p => p.gps_coord.lon)).sum /
            ((t.waypoints ++ t.segment_points).length : ℚ)⟩ := by
  have hfold : ∀ (l : List TrackPoint) (a c : ℚ) (n : ℕ),
      l.foldl accPos (a, c, n) =
        (a + (l.map (fun p => p.gps_coord.lat)).sum,
          c + (l.map (fun p => p.gps_coord.lon)).sum, n + l.length) := by
    intro l
    induction l with
    | nil => intro a c n; simp
    | cons p m ih =>
        intro a c n
        simp only [List.foldl_cons, List.map_cons, List.sum_cons,
          List.length_cons]
        show List.foldl accPos
          (a + p.gps_coord.lat, c + p.gps_coord.lon, n + 1) m = _
        rw [ih]
        refine congrArg₂ Prod.mk (by ring) (congrArg₂ Prod.mk (by ring) ?_)
        omega
  unfold Track.calcAveragePosition
  rw [hfold]
  simp only [zero_add]

theorem foldl_appendTrackPoint :
    ∀ (pts : List TrackPoint) (t : Track),
      pts.foldl Track.appendTrackPoint t =
        pts.foldl (fun u p => u.pushPoint (projPoint t.map_georef p)) t := by
  intro pts
  induction pts with
  | nil => intro t; rfl
  | cons p rest ih =>
      intro t
      simp only [List.foldl_cons]
      rw [ih (t.appendTrackPoint p)]
      have hg : (t.appendTrackPoint p).map_georef = t.map_georef :=
        map_georef_pushPoint t _
      rw [hg]
      rfl

theorem foldl_appendFinish :
    ∀ (pts : List TrackPoint) (t : Track),
      pts.foldl (fun u p => (u.appendTrackPoint p).finishCurrentSegment) t =
        pts.foldl
          (fun u p =>
            (u.pushPoint (projPoint t.map_georef p)).finishCurrentSegment)
          t := by
  intro pts
  induction pts with
  | nil => intro t; rfl
  | cons p rest ih =>
      intro t
      simp only [List.foldl_cons]
      rw [ih ((t.appendTrackPoint p).finishCurrentSegment)]
      have hg : ((t.appendTrackPoint p).finishCurrentSegment).map_georef =
          t.map_georef :=
        map_georef_pushPoint t _
      rw [hg]
      rfl

theorem foldl_singleton_push (k : TrackPoint → TrackPoint) :
    ∀ (pts : List TrackPoint) (t : Track),
      pts.foldl (fun u p => (u.pushPoint (k p)).finishCurrentSegment) t =
        (pts.map (fun p => [p])).foldl
          (fun s seg =>
            (seg.foldl (fun a p => a.pushPoint (k p)) s).finishCurrentSegment)
          t := by
  intro pts
  induction pts with
  | nil => intro t; rfl
  | cons p rest ih =>
      intro t
      simp only [List.map_cons, List.foldl_cons]
      exact ih _

/-- C3: appendTrackPoint with the segment-open flag set starts a new segment
holding just the appended (projected) point and clears the flag; with the
flag clear it extends the last segment.  Consequently N appends with no
intervening finishCurrentSegment yield one segment of N points, and N
appends with finishCurrentSegment after each yield N singleton segments. -/
theorem append_track_point_segment_rule :
    (∀ (t : Track) (p : TrackPoint), t.WF →
      t.current_segment_finished = true →
      (t.appendTrackPoint p).segments =
        t.segments ++ [[projPoint t.map_georef p]] ∧
      (t.appendTrackPoint p).current_segment_finished = false) ∧
    (∀ (t : Track) (p : TrackPoint), t.WF →
      t.current_segment_finished = false →
      (t.appendTrackPoint p).segments =
        t.segments.dropLast ++
          [t.segments.getLastD [] ++ [projPoint t.map_georef p]] ∧
      (t.appendTrackPoint p).current_segment_finished = false) ∧
    (∀ (g : Georeferencing) (pts : List TrackPoint), pts ≠ [] →
      (pts.foldl Track.appendTrackPoint (emptyTrack g)).getNumSegments = 1 ∧
      (pts.foldl Track.appendTrackPoint
        (emptyTrack g)).getSegmentPointCount 0 = some pts.length ∧
      (pts.foldl Track.appendTrackPoint (emptyTrack g)).segments =
        [pts.map (projPoint g)]) ∧
    (∀ (g : Georeferencing) (pts : List TrackPoint),
      (pts.foldl (fun u p => (u.appendTrackPoint p).finishCurrentSegment)
        (emptyTrack g)).getNumSegments = pts.length ∧
      (pts.foldl (fun u p => (u.appendTrackPoint p).finishCurrentSegment)
        (emptyTrack g)).segments = pts.map (fun p => [projPoint g p]) ∧
      ∀ i < pts.length,
        (pts.foldl (fun u p => (u.appendTrackPoint p).finishCurrentSegment)
          (emptyTrack g)).getSegmentPointCount i = some 1) := by
  refine ⟨?_, ?_, ?_, ?_⟩
  · intro t p hWF hflag
    constructor
    · exact segments_pushPoint_finished hWF hflag _
    · unfold Track.appendTrackPoint
      rw [pushPoint_of_finished hflag]
  · intro t p hWF hflag
    constructor
    · exact segments_pushPoint_open hWF hflag _
    · unfold Track.appendTrackPoint
      rw [pushPoint_of_open hflag]
      exact hflag
  · intro g pts hne
    rw [foldl_appendTrackPoint pts (emptyTrack g)]
    have hrun := @run_finished (projPoint (emptyTrack g).map_georef)
      (emptyTrack g) pts rfl hne
    have hsegs := @segments_run_finished
      (projPoint (emptyTrack g).map_georef) (emptyTrack g) pts
      (wf_emptyTrack g) rfl hne
    refine ⟨?_, ?_, ?_⟩
    · rw [hrun]
      rfl
    · rw [hrun]
      unfold Track.getSegmentPointCount Track.getNumSegments
        Track.segmentStart Track.segmentEnd
      simp [emptyTrack]
    · rw [hsegs]
      rw [segments_emptyTrack, List.nil_append]
      rfl
  · intro g pts
    rw [foldl_appendFinish pts (emptyTrack g)]
    rw [foldl_singleton_push (projPoint (emptyTrack g).map_georef) pts
      (emptyTrack g)]
    obtain ⟨hseg, hWFr, _, _, _, _⟩ :=
      segsFold_spec (projPoint (emptyTrack g).map_georef)
        (pts.map (fun p => [p])) (emptyTrack g) (wf_emptyTrack g) rfl
        (by
          intro s hs
          obtain ⟨p, _, heq⟩ := List.mem_map.mp hs
          rw [← heq]
          simp)
    rw [segments_emptyTrack, List.nil_append, List.map_map] at hseg
    refine ⟨?_, ?_, ?_⟩
    · rw [← segments_length, hseg]
      rw [List.length_map]
    · rw [hseg]
      rfl
    · intro i hi
      rw [getSegmentPointCount_eq hWFr i, hseg]
      rw [List.getElem?_map, List.getElem?_eq_getElem hi]
      rfl

/-- Witness for C3 at concrete inputs. -/
theorem append_track_point_segment_rule_witness :
    trackW.WF ∧
    ((trackW.appendTrackPoint pointW1).segments =
      trackW.segments ++ [[projPoint trackW.map_georef pointW1]] ∧
      (trackW.appendTrackPoint pointW1).current_segment_finished = false) ∧
    (([pointW1, pointW2].foldl Track.appendTrackPoint
      (emptyTrack georefW)).getNumSegments = 1 ∧
      ([pointW1, pointW2].foldl Track.appendTrackPoint
        (emptyTrack georefW)).getSegmentPointCount 0 = some 2) ∧
    ([pointW1, pointW2].foldl
      (fun u p => (u.appendTrackPoint p).finishCurrentSegment)
      (emptyTrack georefW)).getNumSegments = 2 := by
  have hW : trackW.WF :=
    ⟨by decide, by decide, fun _ => by decide, fun _ => by decide,
      by decide, by decide⟩
  have h1 := (append_track_point_segment_rule.1 trackW pointW1 hW rfl)
  have h3 := (append_track_point_segment_rule.2.2.1 georefW
    [pointW1, pointW2] (by decide))
  have h4 := (append_track_point_segment_rule.2.2.2 georefW
    [pointW1, pointW2])
  exact ⟨hW, h1, ⟨h3.1, h3.2.1⟩, h4.1⟩

theorem decodeTrkpt_eq_none {p : GpxPoint}
    (h : goodCoord p.lat = false ∨ goodCoord p.lon = false) :
    decodeTrkpt p = none := by
  unfold decodeTrkpt
  cases hla : p.lat with
  | none => rfl
  | some ra =>
      cases ra with
      | unparseable => rfl
      | parsed la =>
          cases hlo : p.lon with
          | none => rfl
          | some rb =>
              cases rb with
              | unparseable => rfl
              | parsed lo =>
                  rw [hla, hlo] at h
                  simp [goodCoord] at h

theorem decodeTrkpt_ne_none {p : GpxPoint} (h1 : goodCoord p.lat = true)
    (h2 : goodCoord p.lon = true) : decodeTrkpt p ≠ none := by
  unfold decodeTrkpt
  cases hla : p.lat with
  | none => rw [hla] at h1; simp [goodCoord] at h1
  | some ra =>
      cases ra with
      | unparseable => rw [hla] at h1; simp [goodCoord] at h1
      | parsed la =>
          cases hlo : p.lon with
          | none => rw [hlo] at h2; simp [goodCoord] at h2
          | some rb =>
              cases rb with
              | unparseable => rw [hlo] at h2; simp [goodCoord] at h2
              | parsed lo => simp

theorem decodeDoc_ne_none_of_good {doc : GpxDoc}
    (hall : ∀ p ∈ doc.allPoints,
      goodCoord p.lat = true ∧ goodCoord p.lon = true) :
    decodeDoc doc ≠ none := by
  intro hnone
  unfold decodeDoc at hnone
  cases hw : mapOrNone decodeWpt doc.wpts with
  | none =>
      obtain ⟨p, hp, hdp⟩ := (mapOrNone_eq_none_iff decodeWpt doc.wpts).mp hw
      have hmem : p ∈ doc.allPoints := List.mem_append.mpr (Or.inl hp)
      have hdt : decodeTrkpt p = none := by
        unfold decodeWpt at hdp
        cases hdt2 : decodeTrkpt p with
        | none => rfl
        | some tp => rw [hdt2] at hdp; simp at hdp
      exact decodeTrkpt_ne_none (hall p hmem).1 (hall p hmem).2 hdt
  | some w =>
      cases ht2 : mapOrNone (mapOrNone decodeTrkpt) doc.trks.flatten with
      | none =>
          obtain ⟨seg, hseg, hdseg⟩ :=
            (mapOrNone_eq_none_iff (mapOrNone decodeTrkpt)
              doc.trks.flatten).mp ht2
          obtain ⟨p, hp, hdp⟩ :=
            (mapOrNone_eq_none_iff decodeTrkpt seg).mp hdseg
          have hmem : p ∈ doc.allPoints :=
            List.mem_append.mpr
              (Or.inr (List.mem_flatten.mpr ⟨seg, hseg, hp⟩))
          exact decodeTrkpt_ne_none (hall p hmem).1 (hall p hmem).2 hdp
      | some s =>
          rw [hw, ht2] at hnone
          simp at hnone

/-- C4: a point element lacking a parseable `lat` or `lon` makes the whole
decode fail; with all coordinates good the decode succeeds, and a present
but malformed optional child (`ele`, `time`, `hdop`, waypoint `name`) is
treated as absent in the decoded point without affecting any other
field. -/
theorem decode_strict_mandatory_lenient_optional (t : Track) (doc : GpxDoc)
    (b : Bool) :
    ((∃ p ∈ doc.allPoints,
        goodCoord p.lat = false ∨ goodCoord p.lon = false) →
      (t.loadFromGPX doc b).1 = false) ∧
    ((∀ p ∈ doc.allPoints,
        goodCoord p.lat = true ∧ goodCoord p.lon = true) →
      (t.loadFromGPX doc b).1 = true) ∧
    (∀ (p : GpxPoint) (la lo : ℚ), p.lat = some (RawNum.parsed la) →
      p.lon = some (RawNum.parsed lo) →
      decodeTrkpt p = some
        { gps_coord := ⟨la, lo⟩, datetime := parseOptTime p.time,
          elevation := parseOptNum p.ele, hDOP := parseOptNum p.hdop,
          map_coord := ⟨0, 0⟩ }) ∧
    (∀ v : Option RawNum, v = none ∨ v = some RawNum.unparseable →
      parseOptNum v = GpxNum.nan) ∧
    (∀ v : Option RawTime, v = none ∨ v = some RawTime.unparseable →
      parseOptTime v = none) ∧
    (∀ (p : GpxPoint) (pr : TrackPoint × String), decodeWpt p = some pr →
      (p.name = none ∨ p.name = some RawText.unparseable) → pr.2 = "") := by
  refine ⟨?_, ?_, ?_, ?_, ?_, ?_⟩
  · intro hex
    obtain ⟨p, hp, hbad⟩ := hex
    have hdd : decodeDoc doc = none := by
      unfold decodeDoc
      rcases List.mem_append.mp hp with hw | ht2
      · have hwn : mapOrNone decodeWpt doc.wpts = none :=
          (mapOrNone_eq_none_iff decodeWpt doc.wpts).mpr
            ⟨p, hw, by
              unfold decodeWpt
              rw [decodeTrkpt_eq_none hbad]
              rfl⟩
        rw [hwn]
      · obtain ⟨seg, hseg, hpseg⟩ := List.mem_flatten.mp ht2
        have hsegnone : mapOrNone decodeTrkpt seg = none :=
          (mapOrNone_eq_none_iff decodeTrkpt seg).mpr
            ⟨p, hpseg, decodeTrkpt_eq_none hbad⟩
        have htn : mapOrNone (mapOrNone decodeTrkpt) doc.trks.flatten =
            none :=
          (mapOrNone_eq_none_iff (mapOrNone decodeTrkpt)
            doc.trks.flatten).mpr ⟨seg, hseg, hsegnone⟩
        rw [htn]
        cases mapOrNone decodeWpt doc.wpts <;> rfl
    unfold Track.loadFromGPX
    rw [hdd]
  · intro hall
    have hdd := decodeDoc_ne_none_of_good hall
    unfold Track.loadFromGPX
    cases hd : decodeDoc doc with
    | none => exact absurd hd hdd
    | some ws => rfl
  · intro p la lo h1 h2
    unfold decodeTrkpt
    rw [h1, h2]
  · intro v hv
    rcases hv with hv | hv <;> rw [hv] <;> rfl
  · intro v hv
    rcases hv with hv | hv <;> rw [hv] <;> rfl
  · intro p pr hdec hname
    unfold decodeWpt at hdec
    cases hdt : decodeTrkpt p with
    | none => rw [hdt] at hdec; simp at hdec
    | some tp =>
        rw [hdt] at hdec
        simp only [Option.map_some', Option.some.injEq] at hdec
        rw [← hdec]
        rcases hname with hn | hn <;> rw [hn] <;> rfl

/-- Witness for C4: the missing-`lon` document fails to decode; the
document with good coordinates but malformed `ele`, `time`, `hdop` and
`name` decodes successfully with those fields absent. -/
theorem decode_strict_mandatory_lenient_optional_witness :
    (trackW.loadFromGPX docBad true).1 = false ∧
    (trackW.loadFromGPX docLenient true).1 = true ∧
    parseOptNum (some RawNum.unparseable) = GpxNum.nan ∧
    parseOptTime (some RawTime.unparseable) = none := by
  refine ⟨?_, ?_, ?_, ?_⟩
  · exact (decode_strict_mandatory_lenient_optional trackW docBad true).1
      ⟨{ lat := some (RawNum.parsed 1) }, by decide, by decide⟩
  · exact (decode_strict_mandatory_lenient_optional trackW docLenient
      true).2.1 (by decide)
  · exact (decode_strict_mandatory_lenient_optional trackW docBad
      true).2.2.2.1 (some RawNum.unparseable) (Or.inr rfl)
  · exact (decode_strict_mandatory_lenient_optional trackW docBad
      true).2.2.2.2.1 (some RawTime.unparseable) (Or.inr rfl)

/-- C9: the index accessors are bounds-checked.  With in-range indices they
return the stored element — counts and points agree with the segments view,
name and waypoint accessors return their stored entries — and with an
out-of-range index they fail with the IndexOutOfRange condition (modelled
as `none`) rather than returning a valid element. -/
theorem getters_bounds_checked (t : Track) (h : t.WF) (i j : ℕ) :
    t.getSegmentPointCount i = (t.segments[i]?).map List.length ∧
    t.getSegmentPoint i j = (t.segments[i]?).bind (fun seg => seg[j]?) ∧
    (i < t.getNumSegments → (t.getSegmentPointCount i).isSome = true) ∧
    (t.getNumSegments ≤ i → t.getSegmentPointCount i = none) ∧
    (t.getNumSegments ≤ i → t.getSegmentPoint i j = none) ∧
    (∀ c, t.getSegmentPointCount i = some c → c ≤ j →
      t.getSegmentPoint i j = none) ∧
    t.getSegmentName i = t.segment_names[i]? ∧
    (i < t.getNumSegments → (t.getSegmentName i).isSome = true) ∧
    (t.getNumSegments ≤ i → t.getSegmentName i = none) ∧
    t.getWaypoint i = t.waypoints[i]? ∧
    (i < t.getNumWaypoints → (t.getWaypoint i).isSome = true) ∧
    (t.getNumWaypoints ≤ i → t.getWaypoint i = none) ∧
    t.getWaypointName i = t.waypoint_names[i]? ∧
    (i < t.getNumWaypoints → (t.getWaypointName i).isSome = true) ∧
    (t.getNumWaypoints ≤ i → t.getWaypointName i = none) := by
  refine ⟨getSegmentPointCount_eq h i, getSegmentPoint_eq h i j,
    ?_, ?_, ?_, ?_, rfl, ?_, ?_, rfl, ?_, ?_, rfl, ?_, ?_⟩
  · intro hi
    unfold Track.getSegmentPointCount
    rw [if_pos hi]
    rfl
  · intro hi
    unfold Track.getSegmentPointCount
    rw [if_neg (by omega)]
  · intro hi
    unfold Track.getSegmentPoint Track.getSegmentPointCount
    rw [if_neg (by omega)]
    rfl
  · intro c hc hcj
    unfold Track.getSegmentPoint
    rw [hc, Option.some_bind, if_neg (by omega)]
  · intro hi
    have hlen : i < t.segment_names.length := by
      rw [(wf_names h).2]
      exact hi
    unfold Track.getSegmentName
    rw [List.getElem?_eq_getElem hlen]
    rfl
  · intro hi
    unfold Track.getSegmentName
    apply List.getElem?_eq_none
    rw [(wf_names h).2]
    exact hi
  · intro hi
    unfold Track.getWaypoint
    rw [List.getElem?_eq_getElem hi]
    rfl
  · intro hi
    unfold Track.getWaypoint
    exact List.getElem?_eq_none hi
  · intro hi
    have hlen : i < t.waypoint_names.length := by
      rw [(wf_names h).1]
      exact hi
    unfold Track.getWaypointName
    rw [List.getElem?_eq_getElem hlen]
    rfl
  · intro hi
    unfold Track.getWaypointName
    apply List.getElem?_eq_none
    rw [(wf_names h).1]
    exact hi

/-- Witness for C9 at the concrete track `trackW`. -/
theorem getters_bounds_checked_witness :
    trackW.WF ∧
    trackW.getSegmentPointCount 0 = (trackW.segments[0]?).map List.length ∧
    trackW.getSegmentPointCount 5 = none ∧
    trackW.getSegmentPoint 5 0 = none := by
  have hW : trackW.WF :=
    ⟨by decide, by decide, fun _ => by decide, fun _ => by decide,
      by decide, by decide⟩
  exact ⟨hW, (getters_bounds_checked trackW hW 0 1).1,
    (getters_bounds_checked trackW hW 5 0).2.2.2.1 (by decide),
    (getters_bounds_checked trackW hW 5 0).2.2.2.2.1 (by decide)⟩

/-! ## Name alignment preservation -/

theorem na_pushPoint {t : Track} (h : t.NamesAligned) (q : TrackPoint) :
    (t.pushPoint q).NamesAligned := by
  by_cases hf : t.current_segment_finished = true
  · rw [pushPoint_of_finished hf]
    refine ⟨h.1, ?_⟩
    simp only [List.length_append, List.length_cons, List.length_nil]
    rw [h.2]
  · have hf2 : t.current_segment_finished = false := by
      cases hcs : t.current_segment_finished
      · rfl
      · exact absurd hcs hf
    rw [pushPoint_of_open hf2]
    exact h

theorem na_pushWaypoint {t : Track} (h : t.NamesAligned) (q : TrackPoint)
    (n : String) : (t.pushWaypoint q n).NamesAligned := by
  refine ⟨?_, h.2⟩
  show (t.waypoint_names ++ [n]).length = (t.waypoints ++ [q]).length
  simp only [List.length_append, List.length_cons, List.length_nil]
  rw [h.1]

theorem na_run_points (k : TrackPoint → TrackPoint) :
    ∀ (pts : List TrackPoint) (u : Track), u.NamesAligned →
      (pts.foldl (fun a p => a.pushPoint (k p)) u).NamesAligned := by
  intro pts
  induction pts with
  | nil => intro u h; exact h
  | cons p rest ih => intro u h; exact ih _ (na_pushPoint h _)

theorem na_run_wpts (k : TrackPoint → TrackPoint) :
    ∀ (wps : List (TrackPoint × String)) (u : Track), u.NamesAligned →
      (wps.foldl (fun s w => s.pushWaypoint (k w.1) w.2) u).NamesAligned := by
  intro wps
  induction wps with
  | nil => intro u h; exact h
  | cons w rest ih => intro u h; exact ih _ (na_pushWaypoint h _ _)

theorem na_segsFold (k : TrackPoint → TrackPoint) :
    ∀ (segs : List (List TrackPoint)) (u : Track), u.NamesAligned →
      (segs.foldl
        (fun s seg =>
          (seg.foldl (fun a p => a.pushPoint (k p)) s).finishCurrentSegment)
        u).NamesAligned := by
  intro segs
  induction segs with
  | nil => intro u h; exact h
  | cons seg rest ih =>
      intro u h
      exact ih _ (na_run_points k seg u h)

/-- C10: every public operation keeps the parallel name storage aligned
with the point storage — one name per waypoint and one name per segment —
so the name accessors are defined exactly for the indices at which the
corresponding point accessors are defined. -/
theorem names_alignment_preserved (t : Track) (h : t.NamesAligned)
    (p : TrackPoint) (n : String) (g : Georeferencing) (doc : GpxDoc)
    (file : Option GpxDoc) (b : Bool) (i : ℕ) :
    (t.appendTrackPoint p).NamesAligned ∧
    t.finishCurrentSegment.NamesAligned ∧
    (t.appendWaypoint p n).NamesAligned ∧
    (t.changeMapGeoreferencing g).NamesAligned ∧
    t.clear.NamesAligned ∧
    (t.loadFromGPX doc b).2.NamesAligned ∧
    (t.loadFrom file b).2.NamesAligned ∧
    (t.getWaypointName i).isSome = (t.getWaypoint i).isSome ∧
    (t.getSegmentName i).isSome = decide (i < t.getNumSegments) := by
  have hload : ∀ d : GpxDoc, (t.loadFromGPX d b).2.NamesAligned := by
    intro d
    unfold Track.loadFromGPX
    cases hd : decodeDoc d with
    | none => exact h
    | some ws =>
        exact na_segsFold (fun p => if b then projPoint t.map_georef p else p)
          ws.2 _
          (na_run_wpts (fun p => if b then projPoint t.map_georef p else p)
            ws.1 t.clear ⟨rfl, rfl⟩)
  refine ⟨?_, h, na_pushWaypoint h _ _, ?_, ⟨rfl, rfl⟩, hload doc, ?_, ?_, ?_⟩
  · exact na_pushPoint h _
  · refine ⟨?_, h.2⟩
    show t.waypoint_names.length = (t.waypoints.map (projPoint g)).length
    rw [List.length_map]
    exact h.1
  · cases file with
    | none => exact h
    | some d => exact hload d
  · by_cases hi : i < t.getNumWaypoints
    · have hlen : i < t.waypoint_names.length := by
        rw [h.1]
        exact hi
      unfold Track.getWaypointName Track.getWaypoint
      rw [List.getElem?_eq_getElem hlen, List.getElem?_eq_getElem hi]
      rfl
    · have hi2 : ¬ i < t.waypoints.length := hi
      have hlen : t.waypoint_names.length ≤ i := by
        rw [h.1]
        omega
      unfold Track.getWaypointName Track.getWaypoint
      rw [List.getElem?_eq_none hlen, List.getElem?_eq_none (by omega)]
      rfl
  · by_cases hi : i < t.getNumSegments
    · have hlen : i < t.segment_names.length := by
        rw [h.2]
        exact hi
      unfold Track.getSegmentName
      rw [List.getElem?_eq_getElem hlen, decide_eq_true hi]
      rfl
    · have hi2 : ¬ i < t.segment_starts.length := hi
      have hlen : t.segment_names.length ≤ i := by
        rw [h.2]
        omega
      unfold Track.getSegmentName
      rw [List.getElem?_eq_none hlen, decide_eq_false hi]
      rfl

/-- Witness for C10 at the concrete track `trackW`. -/
theorem names_alignment_preserved_witness :
    trackW.NamesAligned ∧
    (trackW.appendTrackPoint pointW1).NamesAligned ∧
    (trackW.loadFromGPX docBad true).2.NamesAligned ∧
    (trackW.getWaypointName 0).isSome = (trackW.getWaypoint 0).isSome := by
  have hna : trackW.NamesAligned := ⟨by decide, by decide⟩
  have hthm := names_alignment_preserved trackW hna pointW1 "n" georefW
    docBad none true 0
  exact ⟨hna, hthm.1, hthm.2.2.2.2.2.1, hthm.2.2.2.2.2.2.2.1⟩
